import Mathlib

/-!
Verification development for the doc_RAG retrieval-augmented-generation
backend.  The definitions below are a shallow embedding of the Python
source in `backend/ragbase/ingest.py`, `backend/ragbase/chain.py`,
`backend/api.py` and `running/ragbase/chain.py`: pure helpers become Lean
functions, the Weaviate multi-tenant vector store becomes an explicit
state (`Store`), the per-chunk insert calls that may raise become an
oracle `ok : Chunk → Bool`, and the processed-hashes JSON file becomes a
threaded association list.
-/

set_option linter.unusedVariables false
set_option autoImplicit false

namespace DocRag

/-! ## String helpers (embedding of the Python primitives used)

Python `str.strip`, `str.join`, `os.path.basename` and substring search
are embedded as executable functions on `List Char` so that concrete
evaluations reduce in the kernel. -/

/-- The whitespace characters stripped by Python `str.strip()` on the
inputs occurring here. -/
def isSpaceChar (c : Char) : Bool :=
  c = ' ' || c = '\t' || c = '\n' || c = '\r'

/-- Strip leading and trailing whitespace from a character list. -/
def stripChars (l : List Char) : List Char :=
  ((l.dropWhile isSpaceChar).reverse.dropWhile isSpaceChar).reverse

/-- Embedding of Python `str.strip()`. -/
def pyStrip (s : String) : String :=
  ⟨stripChars s.data⟩

/-- Embedding of Python `sep.join(parts)`. -/
def joinSep (sep : String) : List String → String
  | [] => ""
  | [x] => x
  | x :: xs => x ++ sep ++ joinSep sep xs

/-- Embedding of `os.path.basename` / `pathlib.Path(...).name`: the part
of the path after the last slash. -/
def basename (s : String) : String :=
  ⟨s.data.foldl (fun acc c => if c = '/' then [] else acc ++ [c]) []⟩

/-- Does `pat` occur at the head of `hay`? -/
def startsWithChars : List Char → List Char → Bool
  | _, [] => true
  | [], _ :: _ => false
  | a :: as, b :: bs => a = b && startsWithChars as bs

/-- Does `pat` occur anywhere inside `hay`? -/
def occursInChars : List Char → List Char → Bool
  | [], pat => pat.isEmpty
  | a :: t, pat => startsWithChars (a :: t) pat || occursInChars t pat

/-- Substring test on strings (kernel-computable). -/
def occursIn (hay pat : String) : Bool :=
  occursInChars hay.data pat.data

/-! ## Data model

`Chunk` embeds a LangChain `Document` as produced by `load_and_chunk_docs`
(plus the `doc_hash` / `source` metadata the ingestion loop attaches):
a `page_content` string and the metadata fields used by the code.
`Obj` is a stored Weaviate object: the properties written by
`add_chunks_to_weaviate` (the `coordinates` metadata entry is deleted
before insert, so `Obj` has no such field). -/

structure Chunk where
  page_content : String
  source : String
  page : Int
  doc_type : String
  element_index : Int
  doc_hash : String
  coordinates : Option String := none
  deriving DecidableEq, Repr

structure Obj where
  text : String
  source : String
  page : Int
  doc_type : String
  element_index : Int
  doc_hash : String
  deriving DecidableEq, Repr

/-- The properties dict built for one chunk: `{text: page_content}` plus
all metadata entries except `coordinates`. -/
def objOf (c : Chunk) : Obj :=
  { text := c.page_content
    source := c.source
    page := c.page
    doc_type := c.doc_type
    element_index := c.element_index
    doc_hash := c.doc_hash }

/-- The multi-tenant Weaviate collection `RaggerIndex`: each tenant name
maps to the list of objects stored in that tenant's partition.  A tenant
that was never written to maps to the empty partition (Weaviate's
auto-tenant creation makes creating an empty tenant indistinguishable
from it being absent for the operations modelled here). -/
structure Store where
  tenants : String → List Obj

def emptyStore : Store := ⟨fun _ => []⟩

/-- Insert one object into one tenant's partition. -/
def insertObj (s : Store) (t : String) (o : Obj) : Store :=
  ⟨fun t' => if t' = t then s.tenants t' ++ [o] else s.tenants t'⟩

/-! ## `add_chunks_to_weaviate` (ingest.py lines 174-273)

The function inserts the chunks one by one into
`collection.with_tenant(tenant_id)`.  A chunk whose `page_content` is
falsy (the empty string) is skipped with `continue`; every other chunk is
attempted, and `collection_tenant.data.insert` may raise, which the code
catches and counts as a failed insert.  The insert outcome is modelled by
the oracle `ok : Chunk → Bool` (a raising insert leaves the store
unchanged).  The Python function returns `True` iff
`successful_inserts > 0`. -/

structure AddResult where
  store : Store
  successfulInserts : Nat
  failedInserts : Nat

/-- The per-chunk insert loop of `add_chunks_to_weaviate`. -/
def addChunksLoop (s : Store) (tenant_id : String) : List Chunk → (Chunk → Bool) → AddResult
  | [], ok => ⟨s, 0, 0⟩
  | c :: cs, ok =>
    if c.page_content = "" then
      addChunksLoop s tenant_id cs ok
    else if ok c then
      let r := addChunksLoop (insertObj s tenant_id (objOf c)) tenant_id cs ok
      ⟨r.store, r.successfulInserts + 1, r.failedInserts⟩
    else
      let r := addChunksLoop s tenant_id cs ok
      ⟨r.store, r.successfulInserts, r.failedInserts + 1⟩

/-- `add_chunks_to_weaviate(client, tenant_id, chunks)`: tenant setup
(auto-creation of a missing tenant) is invisible in the partition map, so
the body reduces to the insert loop. -/
def add_chunks_to_weaviate (s : Store) (tenant_id : String) (chunks : List Chunk)
    (ok : Chunk → Bool) : AddResult :=
  addChunksLoop s tenant_id chunks ok

/-- The boolean the Python function returns: `successful_inserts > 0`. -/
def add_chunks_success (s : Store) (tenant_id : String) (chunks : List Chunk)
    (ok : Chunk → Bool) : Bool :=
  0 < (add_chunks_to_weaviate s tenant_id chunks ok).successfulInserts

/-! ## `retrieve_context_weaviate` (chain.py lines 104-158)

The retrieval reads only `collection.with_tenant(tenant_id)` and runs a
`near_vector` query with limit `k`; any exception inside the `try` block
(missing tenant, embedding failure, backend fault) is caught and the
function returns `[]`.  The vector search itself is external, modelled by
a function `search` from a partition's objects and the query to the
result list; real top-k search only ever returns objects of the searched
partition, which is the `search`-subset hypothesis of the theorems.
`fault = true` models the backend raising inside the `try`. -/

structure RDoc where
  content : String
  source : String
  page : Int
  doc_type : String
  element_index : Int
  doc_hash : String
  tenant_id : String
  deriving DecidableEq, Repr

/-- The `Document` built from a retrieved Weaviate object (chain.py
lines 137-149): properties plus the tenant id added to the metadata. -/
def docOf (tenant_id : String) (o : Obj) : RDoc :=
  { content := o.text
    source := o.source
    page := o.page
    doc_type := o.doc_type
    element_index := o.element_index
    doc_hash := o.doc_hash
    tenant_id := tenant_id }

def retrieve_context_weaviate (search : List Obj → String → Nat → List Obj)
    (fault : Bool) (s : Store) (tenant_id query : String) (k : Nat) : List RDoc :=
  if tenant_id = "" then []
  else if fault then []
  else (search (s.tenants tenant_id) query k).map (docOf tenant_id)

/-! ## `process_files_for_session` (ingest.py lines 312-457, Weaviate mode)

The session directory listing is the `files` parameter; each file is
embedded as its name, its SHA-256 content hash (`get_file_hash` — equal
bytes give equal hashes, so the hash field stands for the content), and
the chunk list produced by `load_and_chunk_docs` (which returns `[]` when
loading or chunking raised).  The processed-hashes JSON file
(`load_processed_hashes` / `save_processed_hash`, ingest.py lines 36-55)
is a single dict from content hash to filename with no tenant key,
embedded as an association list threaded through the loop (the code
re-loads it before every file and saves after every successful file,
which sequentially is exactly this threading). -/

structure FileEntry where
  name : String
  hash : String
  chunks : List Chunk
  deriving DecidableEq, Repr

/-- The processed-hashes dict: content hash ↦ filename. -/
def HashBook := List (String × String)

def hashLookup (h : List (String × String)) (k : String) : Option String :=
  (h.find? (fun p => p.1 = k)).map (fun p => p.2)

/-- `processed_hashes[file_hash] = filename` (newest entry shadows). -/
def hashInsert (k v : String) (h : List (String × String)) : List (String × String) :=
  (k, v) :: h

structure Report where
  processed : Nat
  skipped : Nat
  failed : List String
  deriving DecidableEq, Repr

structure RunResult where
  report : Report
  hashes : List (String × String)
  store : Store

/-- The metadata the loop attaches before upserting (ingest.py lines
417-420): `chunk.metadata["doc_hash"] = file_hash`,
`chunk.metadata["source"] = filename`. -/
def prepChunk (f : FileEntry) (c : Chunk) : Chunk :=
  { c with doc_hash := f.hash, source := f.name }

/-- `skipped_files_count += 1; continue`. -/
def withSkipped (r : RunResult) : RunResult :=
  ⟨⟨r.report.processed, r.report.skipped + 1, r.report.failed⟩, r.hashes, r.store⟩

/-- `processed_files_count += 1`. -/
def withProcessed (r : RunResult) : RunResult :=
  ⟨⟨r.report.processed + 1, r.report.skipped, r.report.failed⟩, r.hashes, r.store⟩

/-- `failed_files_list.append(filename)`. -/
def withFailed (n : String) (r : RunResult) : RunResult :=
  ⟨⟨r.report.processed, r.report.skipped, n :: r.report.failed⟩, r.hashes, r.store⟩

/-- The per-file loop of `process_files_for_session` (ingest.py lines
398-451). -/
def processLoop (session_id : String) : List FileEntry → List (String × String) → Store →
    (Chunk → Bool) → RunResult
  | [], h, s, ok => ⟨⟨0, 0, []⟩, h, s⟩
  | f :: fs, h, s, ok =>
    if (hashLookup h f.hash).isSome then
      withSkipped (processLoop session_id fs h s ok)
    else if f.chunks = [] then
      withFailed f.name (processLoop session_id fs h s ok)
    else
      let asres := add_chunks_to_weaviate s session_id (f.chunks.map (prepChunk f)) ok
      if 0 < asres.successfulInserts then
        withProcessed (processLoop session_id fs (hashInsert f.hash f.name h) asres.store ok)
      else
        withFailed f.name (processLoop session_id fs h asres.store ok)

/-- `process_files_for_session(session_id, client)` in remote (Weaviate)
mode, after the collection check, over the session directory's files. -/
def process_files_for_session (session_id : String) (files : List FileEntry)
    (h : List (String × String)) (s : Store) (ok : Chunk → Bool) : RunResult :=
  processLoop session_id files h s ok

/-! ## `remove_links` (chain.py lines 47-49, running/chain.py lines 40-42)

`re.sub(r"https?://\S+|www\.\S+", "", text)`: scanning left to right, at
each position the engine first tries `https?://\S+` (the optional `s`
greedily), then `www\.\S+`; a match consumes the scheme plus the maximal
run of non-whitespace characters (at least one) and is replaced by
nothing. -/

/-- Consume `pat` from the head of `hay`, returning the remainder. -/
def dropPrefixChars : List Char → List Char → Option (List Char)
  | l, [] => some l
  | [], _ :: _ => none
  | a :: as, b :: bs => if a = b then dropPrefixChars as bs else none

/-- `\S+`: at least one non-whitespace character, consumed greedily. -/
def consumeNonSpace : List Char → Option (List Char)
  | [] => none
  | c :: cs => if isSpaceChar c then none else some (cs.dropWhile (fun x => !isSpaceChar x))

/-- Try the regex alternation at the current position; on a match return
the rest of the input after the matched text. -/
def urlMatchAt (l : List Char) : Option (List Char) :=
  match dropPrefixChars l "https://".data with
  | some r => consumeNonSpace r
  | none =>
    match dropPrefixChars l "http://".data with
    | some r => consumeNonSpace r
    | none =>
      match dropPrefixChars l "www.".data with
      | some r => consumeNonSpace r
      | none => none

/-- The scan-and-delete loop of `re.sub(pattern, "", text)`.  Every step
consumes at least one character of the input, so running the structural
loop with `l.length` steps of fuel computes the full substitution (the
fuel-exhausted branch is unreachable). -/
def removeLinksFuel : Nat → List Char → List Char
  | 0, l => l
  | _ + 1, [] => []
  | fuel + 1, c :: cs =>
    match urlMatchAt (c :: cs) with
    | some rest => removeLinksFuel fuel rest
    | none => c :: removeLinksFuel fuel cs

def removeLinksChars (l : List Char) : List Char :=
  removeLinksFuel l.length l

def remove_links (s : String) : String :=
  ⟨removeLinksChars s.data⟩

/-! ## Context formatting (chain.py lines 51-93 and 242-258,
running/chain.py lines 44-98)

`CDoc` embeds the LangChain `Document` as the formatters see it: the
`page_content` string and the three metadata entries the formatters read,
each optional because `metadata.get` supplies a default when the key is
absent. -/

structure CDoc where
  page_content : String
  source : Option String
  page : Option Int
  doc_type : Option String
  deriving DecidableEq, Repr

/-- The body of the `for` loop of `format_docs` (chain.py lines 59-86):
the list of blocks appended to `formatted_context`.  A text-typed (or
unknown-typed) document with blank content is warned about and appended
nowhere. -/
def formatDocsParts : List CDoc → List String
  | [] => []
  | doc :: rest =>
    let source := doc.source.getD "Unknown source"
    let doc_type := doc.doc_type.getD "text"
    let source_name := basename source
    let page_info :=
      match doc.page with
      | some p => " (Page " ++ toString p ++ ")"
      | none => ""
    let content := doc.page_content
    if doc_type = "text" then
      if content = "" ∨ pyStrip content = "" then
        formatDocsParts rest
      else
        ("Source: " ++ source_name ++ page_info ++ "\nContent: " ++ pyStrip content ++ "\n---")
          :: formatDocsParts rest
    else
      if content = "" ∨ pyStrip content = "" then
        formatDocsParts rest
      else
        ("Source: " ++ source_name ++ "\nContent: " ++ pyStrip content ++ "\n---")
          :: formatDocsParts rest

/-- `return full_context if full_context else "No relevant context found."`
(chain.py line 93, running/chain.py line 98). -/
def sentinelIfEmpty (s : String) : String :=
  if s = "" then "No relevant context found." else s

/-- `format_docs(documents)` (chain.py lines 51-93). -/
def format_docs (documents : List CDoc) : String :=
  if documents.isEmpty then "No relevant context found."
  else sentinelIfEmpty (pyStrip (joinSep "\n" (formatDocsParts documents)))

/-- The numbered lines of `format_docs_for_context` (chain.py lines
247-256); `i` is the running index of the enumeration. -/
def formatDocsCtxLines (i : Nat) : List CDoc → List String
  | [] => []
  | doc :: rest =>
    let source := doc.source.getD "Unknown"
    let page_info :=
      match doc.page with
      | some p => " (Page " ++ toString p ++ ")"
      | none => ""
    let content0 := pyStrip doc.page_content
    let content := if content0 = "" then "[Empty Content]" else content0
    ("[" ++ toString (i + 1) ++ "] Source: " ++ source ++ page_info ++ "\nContent: " ++ content)
      :: formatDocsCtxLines (i + 1) rest

/-- `format_docs_for_context(docs)` (chain.py lines 242-258). -/
def format_docs_for_context (docs : List CDoc) : String :=
  if docs.isEmpty then "No relevant context found."
  else joinSep "\n---\n" (formatDocsCtxLines 0 docs)

/-- The loop body of the `running` variant's `format_docs`
(running/chain.py lines 52-92): each document contributes its context
piece, and a bare `"---"` separator is appended between documents. -/
def formatDocsRunningParts : List CDoc → List String
  | [] => []
  | doc :: rest =>
    let source := doc.source.getD "Unknown source"
    let source_name := basename source
    let piece :=
      match doc.doc_type with
      | some "image" => "[Context from image: " ++ source_name ++ "]"
      | some "text" =>
        let page_info :=
          match doc.page with
          | some p => ", page " ++ toString (p + 1)
          | none => ""
        let content :=
          if doc.page_content = "" ∨ pyStrip doc.page_content = "" then
            "[Content missing or empty]"
          else remove_links doc.page_content
        "[Context from text document: " ++ source_name ++ page_info ++ "]\n" ++ content
      | _ =>
        let content :=
          if doc.page_content = "" ∨ pyStrip doc.page_content = "" then
            "[Content missing or empty]"
          else remove_links doc.page_content
        "[Context from: " ++ source_name ++ "]\n" ++ content
    match rest with
    | [] => [piece]
    | _ :: _ => piece :: "---" :: formatDocsRunningParts rest

/-- `format_docs(documents)` of the `running` variant
(running/chain.py lines 44-98). -/
def format_docs_running (documents : List CDoc) : String :=
  if documents.isEmpty then "No relevant context found."
  else sentinelIfEmpty (pyStrip (joinSep "\n" (formatDocsRunningParts documents)))

/-! ## `stream_response` (api.py lines 417-496)

One chat exchange's server-sent event stream.  The async generator
iterates over the chain's `astream_events` trace: a
`on_chain_end` event named `FormatAndGenerate` stores its
`source_documents` into `final_sources`; `on_chat_model_stream` events
with non-empty content are forwarded as `token` events; any
`on_*_error` event (or an exception escaping the loop) yields an `error`
event and leaves the loop.  The `finally` block then yields a `sources`
event only when `final_sources` is non-empty, and always yields the
terminal `end` event. -/

inductive ChainEvent where
  | chatModelStream (content : String)
  | formatEnd (sources : List RDoc)
  | chainError (msg : String)
  | other
  deriving DecidableEq, Repr

inductive SSE where
  | token (content : String)
  | sources (docs : List RDoc)
  | error (msg : String)
  | endEvt
  deriving DecidableEq, Repr

/-- The `finally` block (api.py lines 476-496): the optional `sources`
event followed by the terminal `end` event. -/
def finallyEvents (final_sources : List RDoc) : List SSE :=
  (if final_sources.isEmpty then [] else [SSE.sources final_sources]) ++ [SSE.endEvt]

/-- The event loop with the current value of `final_sources`. -/
def streamLoop : List ChainEvent → List RDoc → List SSE
  | [], final_sources => finallyEvents final_sources
  | ChainEvent.chatModelStream c :: rest, final_sources =>
    if c = "" then streamLoop rest final_sources
    else SSE.token c :: streamLoop rest final_sources
  | ChainEvent.formatEnd srcs :: rest, _ => streamLoop rest srcs
  | ChainEvent.chainError m :: rest, final_sources =>
    SSE.error m :: finallyEvents final_sources
  | ChainEvent.other :: rest, final_sources => streamLoop rest final_sources

/-- `stream_response()` over one exchange's chain-event trace;
`final_sources` starts out as the empty list (api.py line 419). -/
def stream_response (events : List ChainEvent) : List SSE :=
  streamLoop events []

def isSourcesEvt : SSE → Bool
  | SSE.sources _ => true
  | _ => false

def isEndEvt : SSE → Bool
  | SSE.endEvt => true
  | _ => false

def isTokenEvt : SSE → Bool
  | SSE.token _ => true
  | _ => false

def isErrorEvt : SSE → Bool
  | SSE.error _ => true
  | _ => false

/-- Concrete inputs used by witnesses and counterexamples. -/
def urlCDoc : CDoc :=
  { page_content := "see http://evil.com now"
    source := some "a.pdf"
    page := none
    doc_type := some "text" }

/-- A sample retrieved document for concrete traces. -/
def sampleRDoc : RDoc :=
  { content := "t", source := "a.pdf", page := 0, doc_type := "text"
    element_index := 0, doc_hash := "h", tenant_id := "s1" }

/-- Trivial search used for concrete witness instantiations: return the
whole partition. -/
def idSearch : List Obj → String → Nat → List Obj := fun l _ _ => l

def sampleChunk : Chunk :=
  { page_content := "hello world", source := "a.pdf", page := 1
    doc_type := "text", element_index := 0, doc_hash := "h0" }

def blankChunk : Chunk :=
  { page_content := " ", source := "a.pdf", page := 0
    doc_type := "text", element_index := 0, doc_hash := "hb" }

def chunkA : Chunk :=
  { page_content := "a", source := "", page := 0
    doc_type := "text", element_index := 0, doc_hash := "" }

def chunkB : Chunk :=
  { page_content := "b", source := "", page := 1
    doc_type := "text", element_index := 1, doc_hash := "" }

def fMixed : FileEntry := { name := "f.pdf", hash := "h1", chunks := [chunkA, chunkB] }

/-- Insert oracle that succeeds only for the chunk with text `"a"`. -/
def okOnlyA : Chunk → Bool := fun c => c.page_content == "a"

def noHashes : List (String × String) := []

def fGood : FileEntry := { name := "doc.pdf", hash := "h9", chunks := [chunkA] }

def fGood2 : FileEntry := { name := "copy.pdf", hash := "h9", chunks := [chunkA] }

/-! ## Helper lemmas -/

theorem string_data_append (a b : String) : (a ++ b).data = a.data ++ b.data :=
  rfl

theorem string_append_ne_empty_left (a b : String) (h : a ≠ "") : a ++ b ≠ "" := by
  intro hc
  apply h
  have hd : a.data ++ b.data = [] := by
    rw [← string_data_append, hc]
  have ha : a.data = [] := (List.append_eq_nil.mp hd).1
  cases a
  simp_all

theorem sentinelIfEmpty_ne_empty (s : String) : sentinelIfEmpty s ≠ "" := by
  unfold sentinelIfEmpty
  split
  · decide
  · assumption

theorem joinSep_cons_ne_empty (sep x : String) (xs : List String) (h : x ≠ "") :
    joinSep sep (x :: xs) ≠ "" := by
  cases xs with
  | nil => simpa [joinSep] using h
  | cons y ys =>
    simp only [joinSep]
    exact string_append_ne_empty_left _ _ (string_append_ne_empty_left _ _ h)

theorem format_docs_ne_empty (documents : List CDoc) : format_docs documents ≠ "" := by
  unfold format_docs
  split
  · decide
  · exact sentinelIfEmpty_ne_empty _

theorem format_docs_for_context_ne_empty (docs : List CDoc) :
    format_docs_for_context docs ≠ "" := by
  unfold format_docs_for_context
  split
  · decide
  · rename_i hne
    cases docs with
    | nil => simp at hne
    | cons d ds =>
      simp only [formatDocsCtxLines]
      apply joinSep_cons_ne_empty
      apply string_append_ne_empty_left
      apply string_append_ne_empty_left
      apply string_append_ne_empty_left
      apply string_append_ne_empty_left
      apply string_append_ne_empty_left
      apply string_append_ne_empty_left
      decide

/-! ## Claims -/

/-- C5: for the empty list of retrieved documents, both context
formatters (`format_docs` and `format_docs_for_context`) return exactly
the literal sentinel string `"No relevant context found."`, and neither
formatter ever returns the empty string, for any input list. -/
theorem empty_context_sentinel :
    format_docs [] = "No relevant context found." ∧
    format_docs_for_context [] = "No relevant context found." ∧
    ∀ docs : List CDoc, format_docs docs ≠ "" ∧ format_docs_for_context docs ≠ "" :=
  ⟨rfl, rfl, fun docs => ⟨format_docs_ne_empty docs, format_docs_for_context_ne_empty docs⟩⟩

/-- C9: evaluation of the code at the failing input.  `format_docs` in
`backend/ragbase/chain.py` defines `remove_links` but never calls it: a
retrieved chunk whose text contains the token `http://evil.com` is
rendered into the LLM context string with the URL intact.  The `running`
variant of `format_docs` (running/ragbase/chain.py) does apply
`remove_links`, and on the same document the formatted context contains
no such URL token — the claimed (and spec-intended) stripping behavior. -/
theorem url_stripping_missing_in_backend_format_docs :
    occursIn (format_docs [urlCDoc]) "http://evil.com" = true ∧
    occursIn (format_docs_running [urlCDoc]) "http://evil.com" = false ∧
    remove_links "see http://evil.com now" = "see  now" := by
  decide

/-- The structural shape of every emitted stream: token events, then at
most one error event, then the optional sources event, then the terminal
end event. -/
theorem streamLoop_decomp (events : List ChainEvent) :
    ∀ srcs0 : List RDoc, ∃ (toks : List String) (errOpt : List SSE) (srcs : List RDoc),
      streamLoop events srcs0 =
        (toks.map SSE.token ++ errOpt ++
          (if srcs.isEmpty then [] else [SSE.sources srcs])) ++ [SSE.endEvt] ∧
      (errOpt = [] ∨ ∃ m, errOpt = [SSE.error m]) := by
  induction events with
  | nil =>
    intro srcs0
    exact ⟨[], [], srcs0, by simp [streamLoop, finallyEvents], Or.inl rfl⟩
  | cons e rest ih =>
    intro srcs0
    cases e with
    | chatModelStream c =>
      by_cases hc : c = ""
      · obtain ⟨toks, errOpt, srcs, heq, herr⟩ := ih srcs0
        exact ⟨toks, errOpt, srcs, by simp [streamLoop, hc, heq], herr⟩
      · obtain ⟨toks, errOpt, srcs, heq, herr⟩ := ih srcs0
        refine ⟨c :: toks, errOpt, srcs, ?_, herr⟩
        simp [streamLoop, hc, heq]
    | formatEnd s =>
      obtain ⟨toks, errOpt, srcs, heq, herr⟩ := ih s
      exact ⟨toks, errOpt, srcs, by simp [streamLoop, heq], herr⟩
    | chainError m =>
      exact ⟨[], [SSE.error m], srcs0, by simp [streamLoop, finallyEvents],
        Or.inr ⟨m, rfl⟩⟩
    | other =>
      obtain ⟨toks, errOpt, srcs, heq, herr⟩ := ih srcs0
      exact ⟨toks, errOpt, srcs, by simp [streamLoop, heq], herr⟩

theorem countP_map_token (p : SSE → Bool) (toks : List String)
    (hp : ∀ c, p (SSE.token c) = false) : (toks.map SSE.token).countP p = 0 := by
  induction toks with
  | nil => simp
  | cons c cs ih => simp [List.countP_cons, hp, ih]

/-- C3 counterexample: the claim fails on the code in two ways.  With an
empty retrieved-chunk list (here: the empty trace, where `final_sources`
keeps its initial value `[]`), the stream contains zero `sources` events,
not exactly one.  And when an error event arrives after a non-empty
source list was captured, the emitted `error` event is followed by
`sources`, not immediately by `end`. -/
theorem stream_taxonomy_counterexample :
    ¬ ((stream_response []).countP isSourcesEvt = 1) ∧
    stream_response [ChainEvent.formatEnd [sampleRDoc], ChainEvent.chainError "boom"] =
      [SSE.error "boom", SSE.sources [sampleRDoc], SSE.endEvt] := by
  decide

/-- C3 (amended): in the event stream produced by one chat exchange
(`stream_response`), there is exactly one terminal `end` event which is
always the last event; there is at most one `sources` event, emitted
(just before `end`) exactly when the captured source list is non-empty —
none is emitted when the retrieved-chunk list is empty; and the stream is
a sequence of `token` events, then at most one `error` event, then the
optional `sources` event, then `end` — so an `error` event is followed by
the optional `sources` event and then `end`, never by further tokens. -/
theorem stream_taxonomy_amended (events : List ChainEvent) :
    ∃ (toks : List String) (errOpt : List SSE) (srcs : List RDoc),
      stream_response events =
        (toks.map SSE.token ++ errOpt ++
          (if srcs.isEmpty then [] else [SSE.sources srcs])) ++ [SSE.endEvt] ∧
      (errOpt = [] ∨ ∃ m, errOpt = [SSE.error m]) ∧
      (stream_response events).countP isEndEvt = 1 ∧
      (stream_response events).getLast? = some SSE.endEvt ∧
      (stream_response events).countP isSourcesEvt =
        (if srcs.isEmpty then 0 else 1) := by
  obtain ⟨toks, errOpt, srcs, heq, herr⟩ := streamLoop_decomp events []
  have heq' : stream_response events =
      (toks.map SSE.token ++ errOpt ++
        (if srcs.isEmpty then [] else [SSE.sources srcs])) ++ [SSE.endEvt] := heq
  refine ⟨toks, errOpt, srcs, heq', herr, ?_, ?_, ?_⟩
  · rw [heq']
    have htok : (toks.map SSE.token).countP isEndEvt = 0 :=
      countP_map_token _ _ (fun c => rfl)
    have herr0 : errOpt.countP isEndEvt = 0 := by
      rcases herr with h | ⟨m, h⟩ <;> simp [h, List.countP_cons, isEndEvt]
    have hsrc0 : (if srcs.isEmpty then ([] : List SSE)
        else [SSE.sources srcs]).countP isEndEvt = 0 := by
      split <;> simp [List.countP_cons, isEndEvt]
    simp [List.countP_append, htok, herr0, hsrc0, List.countP_cons, isEndEvt]
  · rw [heq']
    exact List.getLast?_concat _
  · rw [heq']
    have htok : (toks.map SSE.token).countP isSourcesEvt = 0 :=
      countP_map_token _ _ (fun c => rfl)
    have herr0 : errOpt.countP isSourcesEvt = 0 := by
      rcases herr with h | ⟨m, h⟩ <;> simp [h, List.countP_cons, isSourcesEvt]
    have hsrc : (if srcs.isEmpty then ([] : List SSE)
        else [SSE.sources srcs]).countP isSourcesEvt =
        (if srcs.isEmpty then 0 else 1) := by
      split <;> simp [List.countP_cons, isSourcesEvt]
    simp only [List.countP_append, htok, herr0, hsrc, Nat.zero_add, Nat.add_zero]
    simp [List.countP_cons, isSourcesEvt]

/-- The insert loop touches only the partition of the tenant it was
given: every other partition is left unchanged. -/
theorem addChunksLoop_tenants_of_ne (cs : List Chunk) :
    ∀ (s : Store) (A : String) (ok : Chunk → Bool) (B : String), B ≠ A →
      (addChunksLoop s A cs ok).store.tenants B = s.tenants B := by
  induction cs with
  | nil => intro s A ok B hne; rfl
  | cons c cs ih =>
    intro s A ok B hne
    simp only [addChunksLoop]
    split
    · exact ih s A ok B hne
    · split
      · rw [ih (insertObj s A (objOf c)) A ok B hne]
        simp [insertObj, hne]
      · exact ih s A ok B hne

theorem add_chunks_tenants_of_ne (s : Store) (A : String) (cs : List Chunk)
    (ok : Chunk → Bool) (B : String) (hne : B ≠ A) :
    (add_chunks_to_weaviate s A cs ok).store.tenants B = s.tenants B :=
  addChunksLoop_tenants_of_ne cs s A ok B hne

/-- C1: tenant isolation.  For distinct session ids `A ≠ B` and any
query, upserting chunks for session `A` (`add_chunks_to_weaviate`) does
not change what retrieval scoped to session `B`
(`retrieve_context_weaviate`) returns, and everything retrieval for `B`
returns is built from an object already stored in `B`'s own partition —
so a chunk upserted for `A` is never contained in `B`'s results.  The
hypothesis on `search` says vector search only returns objects of the
partition it searches, which is how the multi-tenant `near_vector` query
behaves. -/
theorem tenant_isolation (search : List Obj → String → Nat → List Obj)
    (hsearch : ∀ (l : List Obj) (q : String) (k : Nat), ∀ o ∈ search l q k, o ∈ l)
    (fault : Bool) (s : Store) (A B query : String) (k : Nat)
    (chunks : List Chunk) (ok : Chunk → Bool) (hAB : A ≠ B) :
    retrieve_context_weaviate search fault
        ((add_chunks_to_weaviate s A chunks ok).store) B query k =
      retrieve_context_weaviate search fault s B query k ∧
    ∀ d ∈ retrieve_context_weaviate search fault s B query k,
      ∃ o ∈ s.tenants B, d = docOf B o := by
  constructor
  · unfold retrieve_context_weaviate
    rw [add_chunks_tenants_of_ne s A chunks ok B (Ne.symm hAB)]
  · intro d hd
    unfold retrieve_context_weaviate at hd
    split at hd
    · simp at hd
    · split at hd
      · simp at hd
      · obtain ⟨o, ho, rfl⟩ := List.mem_map.mp hd
        exact ⟨o, hsearch _ _ _ o ho, rfl⟩

/-- C7: retriever soft-failure.  A backend exception inside the `try`
block (`fault = true`) makes `retrieve_context_weaviate` return the empty
list rather than propagate the exception (the Lean embedding is a total
function, mirroring the Python `except` handler that swallows the error),
and an absent or empty tenant partition likewise yields the empty list. -/
theorem retriever_soft_failure (search : List Obj → String → Nat → List Obj)
    (hsearch : ∀ (l : List Obj) (q : String) (k : Nat), ∀ o ∈ search l q k, o ∈ l)
    (s : Store) (t query : String) (k : Nat) :
    retrieve_context_weaviate search true s t query k = [] ∧
    (s.tenants t = [] → retrieve_context_weaviate search false s t query k = []) := by
  constructor
  · unfold retrieve_context_weaviate
    split
    · rfl
    · rfl
  · intro hempty
    unfold retrieve_context_weaviate
    split
    · rfl
    · have hnil : search (s.tenants t) query k = [] := by
        rw [hempty]
        cases h : search [] query k with
        | nil => rfl
        | cons o os =>
          exact absurd (hsearch [] query k o (h ▸ List.mem_cons_self o os))
            (List.not_mem_nil o)
      simp [hnil]

/-- C1 witness: the isolation theorem applied to two concrete distinct
sessions with one concrete upserted chunk. -/
theorem tenant_isolation_witness :
    ("s1" : String) ≠ "s2" ∧
    retrieve_context_weaviate idSearch false
        ((add_chunks_to_weaviate emptyStore "s1" [sampleChunk] (fun _ => true)).store)
        "s2" "query" 5 =
      retrieve_context_weaviate idSearch false emptyStore "s2" "query" 5 :=
  ⟨by decide,
    (tenant_isolation idSearch (fun l q k o ho => ho) false emptyStore "s1" "s2"
      "query" 5 [sampleChunk] (fun _ => true) (by decide)).1⟩

/-- C7 witness: the soft-failure theorem applied to a concrete empty
store and session. -/
theorem retriever_soft_failure_witness :
    emptyStore.tenants "s1" = [] ∧
    retrieve_context_weaviate idSearch true emptyStore "s1" "q" 5 = [] ∧
    retrieve_context_weaviate idSearch false emptyStore "s1" "q" 5 = [] :=
  ⟨rfl,
    (retriever_soft_failure idSearch (fun l q k o ho => ho) emptyStore "s1" "q" 5).1,
    (retriever_soft_failure idSearch (fun l q k o ho => ho) emptyStore "s1" "q" 5).2 rfl⟩

theorem processLoop_accounting (session_id : String) (files : List FileEntry) :
    ∀ (h : List (String × String)) (s : Store) (ok : Chunk → Bool),
      (processLoop session_id files h s ok).report.processed +
        (processLoop session_id files h s ok).report.skipped +
        (processLoop session_id files h s ok).report.failed.length =
      files.length := by
  induction files with
  | nil => intro h s ok; rfl
  | cons f fs ih =>
    intro h s ok
    simp only [processLoop, withSkipped, withProcessed, withFailed]
    split
    · have := ih h s ok
      simp only [List.length_cons]
      omega
    · split
      · have := ih h s ok
        simp only [List.length_cons]
        omega
      · split
        · have := ih (hashInsert f.hash f.name h)
            (add_chunks_to_weaviate s session_id (f.chunks.map (prepChunk f)) ok).store ok
          simp only [List.length_cons]
          omega
        · have := ih h
            (add_chunks_to_weaviate s session_id (f.chunks.map (prepChunk f)) ok).store ok
          simp only [List.length_cons]
          omega

/-- C4: batch accounting.  For every invocation of the ingestion loop of
`process_files_for_session` over any list of input files, every file is
counted in exactly one of the three outcomes:
`processed + skipped + |failed| = number of files considered`. -/
theorem ingestion_batch_accounting (session_id : String) (files : List FileEntry)
    (h : List (String × String)) (s : Store) (ok : Chunk → Bool) :
    (process_files_for_session session_id files h s ok).report.processed +
      (process_files_for_session session_id files h s ok).report.skipped +
      (process_files_for_session session_id files h s ok).report.failed.length =
    files.length :=
  processLoop_accounting session_id files h s ok

/-- C8 counterexample: the insert loop of `add_chunks_to_weaviate` skips
only chunks whose `page_content` is the empty string (`not
chunk.page_content`).  A chunk whose text is a single space — blank after
trimming but non-empty — passes the check and is written to the
tenant partition, contradicting the claim that no whitespace-only chunk
is ever written to the index. -/
theorem blank_chunk_written_counterexample :
    pyStrip blankChunk.page_content = "" ∧
    blankChunk.page_content ≠ "" ∧
    (add_chunks_to_weaviate emptyStore "s1" [blankChunk]
        (fun _ => true)).store.tenants "s1" = [objOf blankChunk] ∧
    (objOf blankChunk).text = " " := by
  decide

/-- Objects present after the insert loop either were already stored or
have non-empty text. -/
theorem addChunksLoop_mem_text_ne (cs : List Chunk) :
    ∀ (s : Store) (t : String) (ok : Chunk → Bool) (B : String) (o : Obj),
      o ∈ (addChunksLoop s t cs ok).store.tenants B →
      o ∈ s.tenants B ∨ o.text ≠ "" := by
  induction cs with
  | nil => intro s t ok B o ho; exact Or.inl ho
  | cons c cs ih =>
    intro s t ok B o ho
    simp only [addChunksLoop] at ho
    split at ho
    · exact ih s t ok B o ho
    · rename_i hcontent
      split at ho
      · rcases ih (insertObj s t (objOf c)) t ok B o ho with hmem | hne
        · by_cases hBt : B = t
          · subst hBt
            simp only [insertObj, if_pos rfl] at hmem
            rcases List.mem_append.mp hmem with hmem | hmem
            · exact Or.inl hmem
            · right
              have : o = objOf c := by simpa using hmem
              subst this
              simpa [objOf] using hcontent
          · simp only [insertObj, if_neg hBt] at hmem
            exact Or.inl hmem
        · exact Or.inr hne
      · exact ih s t ok B o ho

/-- C8 (amended): no chunk whose text is the *empty string* is ever
written to the vector index — such chunks are discarded before the
upsert; chunks whose text is whitespace-only but non-empty are *not*
filtered (and `Ingestor.ingest`'s batch path applies no text filter at
all).  Formally: any object in a tenant partition after
`add_chunks_to_weaviate` was either already stored or has non-empty
text. -/
theorem chunk_nonempty_amended (s : Store) (t : String) (cs : List Chunk)
    (ok : Chunk → Bool) (B : String) (o : Obj)
    (ho : o ∈ (add_chunks_to_weaviate s t cs ok).store.tenants B) :
    o ∈ s.tenants B ∨ o.text ≠ "" :=
  addChunksLoop_mem_text_ne cs s t ok B o ho

/-- C8 witness: the amended theorem applied to a concrete insert. -/
theorem chunk_nonempty_amended_witness :
    objOf sampleChunk ∈ (add_chunks_to_weaviate emptyStore "s1" [sampleChunk]
        (fun _ => true)).store.tenants "s1" ∧
    (objOf sampleChunk ∈ emptyStore.tenants "s1" ∨ (objOf sampleChunk).text ≠ "") :=
  ⟨by decide,
    chunk_nonempty_amended emptyStore "s1" [sampleChunk] (fun _ => true) "s1"
      (objOf sampleChunk) (by decide)⟩

theorem hashLookup_insert (k v x : String) (m : List (String × String)) :
    hashLookup (hashInsert k v m) x = if x = k then some v else hashLookup m x := by
  by_cases hxk : x = k
  · subst hxk
    simp [hashLookup, hashInsert, List.find?]
  · simp [hashLookup, hashInsert, List.find?, Ne.symm hxk, hxk]

/-- Evaluation of the ingestion loop on a single file: the four possible
outcomes. -/
theorem processLoop_single (sid : String) (f : FileEntry) (h : List (String × String))
    (s : Store) (ok : Chunk → Bool) :
    processLoop sid [f] h s ok =
      if (hashLookup h f.hash).isSome then ⟨⟨0, 1, []⟩, h, s⟩
      else if f.chunks = [] then ⟨⟨0, 0, [f.name]⟩, h, s⟩
      else if 0 < (add_chunks_to_weaviate s sid (f.chunks.map (prepChunk f))
          ok).successfulInserts then
        ⟨⟨1, 0, []⟩, hashInsert f.hash f.name h,
          (add_chunks_to_weaviate s sid (f.chunks.map (prepChunk f)) ok).store⟩
      else ⟨⟨0, 0, [f.name]⟩, h,
        (add_chunks_to_weaviate s sid (f.chunks.map (prepChunk f)) ok).store⟩ := by
  simp only [processLoop, withSkipped, withProcessed, withFailed]

/-- C6 counterexample: `add_chunks_to_weaviate` returns `True` as soon as
`successful_inserts > 0`.  For a file with two chunks whose second chunk
upsert fails, one insert fails, yet the file is recorded as processed
(not failed) and its content hash is recorded as indexed — a partial-file
success state the claim says cannot exist. -/
theorem partial_file_success_counterexample :
    (add_chunks_to_weaviate emptyStore "s1" (fMixed.chunks.map (prepChunk fMixed))
        okOnlyA).failedInserts = 1 ∧
    0 < (add_chunks_to_weaviate emptyStore "s1" (fMixed.chunks.map (prepChunk fMixed))
        okOnlyA).successfulInserts ∧
    (process_files_for_session "s1" [fMixed] noHashes emptyStore okOnlyA).report.processed
      = 1 ∧
    (process_files_for_session "s1" [fMixed] noHashes emptyStore okOnlyA).report.failed
      = [] ∧
    hashLookup (process_files_for_session "s1" [fMixed] noHashes emptyStore okOnlyA).hashes
      "h1" = some "f.pdf" := by
  decide

/-- C6 (amended): per-file ingestion is *not* all-or-nothing.  For a new,
chunkable file, the file is recorded as failed — and its hash left
unrecorded — exactly when *no* chunk upsert succeeds; as soon as at least
one chunk upsert succeeds the file is recorded as processed and its
content hash saved, even if other chunk upserts for the same file
failed. -/
theorem all_or_nothing_amended (sid : String) (f : FileEntry)
    (h : List (String × String)) (s : Store) (ok : Chunk → Bool)
    (hfresh : hashLookup h f.hash = none) (hch : f.chunks ≠ []) :
    (0 < (add_chunks_to_weaviate s sid (f.chunks.map (prepChunk f))
        ok).successfulInserts →
      (process_files_for_session sid [f] h s ok).report = ⟨1, 0, []⟩ ∧
      hashLookup (process_files_for_session sid [f] h s ok).hashes f.hash
        = some f.name) ∧
    ((add_chunks_to_weaviate s sid (f.chunks.map (prepChunk f))
        ok).successfulInserts = 0 →
      (process_files_for_session sid [f] h s ok).report = ⟨0, 0, [f.name]⟩ ∧
      (process_files_for_session sid [f] h s ok).hashes = h) := by
  have e := processLoop_single sid f h s ok
  rw [hfresh] at e
  simp only [Option.isSome_none, Bool.false_eq_true, if_false, if_neg hch] at e
  constructor
  · intro hpos
    rw [if_pos hpos] at e
    refine ⟨?_, ?_⟩
    · show (processLoop sid [f] h s ok).report = _
      rw [e]
    · show hashLookup (processLoop sid [f] h s ok).hashes f.hash = _
      rw [e]
      simp [hashLookup_insert]
  · intro hzero
    rw [if_neg (by omega)] at e
    refine ⟨?_, ?_⟩
    · show (processLoop sid [f] h s ok).report = _
      rw [e]
    · show (processLoop sid [f] h s ok).hashes = h
      rw [e]

/-- C6 witness: the amended theorem applied to the concrete mixed-outcome
file. -/
theorem all_or_nothing_amended_witness :
    hashLookup noHashes fMixed.hash = none ∧
    fMixed.chunks ≠ [] ∧
    (0 < (add_chunks_to_weaviate emptyStore "s1" (fMixed.chunks.map (prepChunk fMixed))
        okOnlyA).successfulInserts →
      (process_files_for_session "s1" [fMixed] noHashes emptyStore okOnlyA).report
        = ⟨1, 0, []⟩ ∧
      hashLookup (process_files_for_session "s1" [fMixed] noHashes emptyStore
        okOnlyA).hashes fMixed.hash = some fMixed.name) :=
  ⟨by decide, by decide,
    (all_or_nothing_amended "s1" fMixed noHashes emptyStore okOnlyA (by decide)
      (by decide)).1⟩

/-- How many inserts succeed depends only on the chunks and the insert
oracle, not on the store contents. -/
theorem addChunksLoop_success_indep (cs : List Chunk) :
    ∀ (s s' : Store) (t : String) (ok : Chunk → Bool),
      (addChunksLoop s t cs ok).successfulInserts =
        (addChunksLoop s' t cs ok).successfulInserts := by
  induction cs with
  | nil => intro s s' t ok; rfl
  | cons c cs ih =>
    intro s s' t ok
    simp only [addChunksLoop]
    split
    · exact ih s s' t ok
    · split
      · simp only []
        rw [ih (insertObj s t (objOf c)) (insertObj s' t (objOf c)) t ok]
      · simp only []
        rw [ih s s' t ok]

/-- When no insert succeeds, the store is unchanged. -/
theorem addChunksLoop_store_of_zero (cs : List Chunk) :
    ∀ (s : Store) (t : String) (ok : Chunk → Bool),
      (addChunksLoop s t cs ok).successfulInserts = 0 →
      (addChunksLoop s t cs ok).store = s := by
  induction cs with
  | nil => intro s t ok _; rfl
  | cons c cs ih =>
    intro s t ok hz
    simp only [addChunksLoop] at hz ⊢
    split at hz
    · rename_i hcond
      rw [if_pos hcond]
      exact ih s t ok hz
    · rename_i hcond
      rw [if_neg hcond]
      split at hz
      · rename_i hok
        rw [if_pos hok]
        simp at hz
      · rename_i hok
        rw [if_neg hok]
        simp only [] at hz
        exact ih s t ok hz

theorem processLoop_cons_skip (sid : String) (f : FileEntry) (fs : List FileEntry)
    (h : List (String × String)) (s : Store) (ok : Chunk → Bool)
    (hx : (hashLookup h f.hash).isSome = true) :
    processLoop sid (f :: fs) h s ok = withSkipped (processLoop sid fs h s ok) := by
  simp only [processLoop, hx, if_true]

theorem processLoop_cons_nochunks (sid : String) (f : FileEntry) (fs : List FileEntry)
    (h : List (String × String)) (s : Store) (ok : Chunk → Bool)
    (hx : (hashLookup h f.hash).isSome = false) (hc : f.chunks = []) :
    processLoop sid (f :: fs) h s ok = withFailed f.name (processLoop sid fs h s ok) := by
  simp only [processLoop, hx, Bool.false_eq_true, if_false, if_pos hc]

theorem processLoop_cons_success (sid : String) (f : FileEntry) (fs : List FileEntry)
    (h : List (String × String)) (s : Store) (ok : Chunk → Bool)
    (hx : (hashLookup h f.hash).isSome = false) (hc : f.chunks ≠ [])
    (hs : 0 < (add_chunks_to_weaviate s sid (f.chunks.map (prepChunk f))
      ok).successfulInserts) :
    processLoop sid (f :: fs) h s ok =
      withProcessed (processLoop sid fs (hashInsert f.hash f.name h)
        (add_chunks_to_weaviate s sid (f.chunks.map (prepChunk f)) ok).store ok) := by
  simp only [processLoop, hx, Bool.false_eq_true, if_false, if_neg hc, if_pos hs]

theorem processLoop_cons_failins (sid : String) (f : FileEntry) (fs : List FileEntry)
    (h : List (String × String)) (s : Store) (ok : Chunk → Bool)
    (hx : (hashLookup h f.hash).isSome = false) (hc : f.chunks ≠ [])
    (hs : (add_chunks_to_weaviate s sid (f.chunks.map (prepChunk f))
      ok).successfulInserts = 0) :
    processLoop sid (f :: fs) h s ok =
      withFailed f.name (processLoop sid fs h
        (add_chunks_to_weaviate s sid (f.chunks.map (prepChunk f)) ok).store ok) := by
  simp only [processLoop, hx, Bool.false_eq_true, if_false, if_neg hc, hs,
    Nat.lt_irrefl, if_neg (by omega : ¬ (0:Nat) < 0)]

/-- A hash present in the store stays present through the loop. -/
theorem processLoop_hashes_mono (sid : String) (files : List FileEntry) :
    ∀ (h : List (String × String)) (s : Store) (ok : Chunk → Bool) (x : String),
      (hashLookup h x).isSome = true →
      (hashLookup (processLoop sid files h s ok).hashes x).isSome = true := by
  induction files with
  | nil => intro h s ok x hx; exact hx
  | cons f fs ih =>
    intro h s ok x hx
    simp only [processLoop]
    split
    · simp only [withSkipped]
      exact ih h s ok x hx
    · split
      · simp only [withFailed]
        exact ih h s ok x hx
      · split
        · simp only [withProcessed]
          apply ih
          rw [hashLookup_insert]
          split
          · rfl
          · exact hx
        · simp only [withFailed]
          exact ih h _ ok x hx

/-- Keys whose hash belongs to none of the files are untouched by the
loop. -/
theorem processLoop_hashes_stable (sid : String) (files : List FileEntry) :
    ∀ (h : List (String × String)) (s : Store) (ok : Chunk → Bool) (x : String),
      x ∉ files.map FileEntry.hash →
      hashLookup (processLoop sid files h s ok).hashes x = hashLookup h x := by
  induction files with
  | nil => intro h s ok x _; rfl
  | cons f fs ih =>
    intro h s ok x hx
    have hxf : x ≠ f.hash := by
      intro heq
      exact hx (by simp [heq])
    have hxfs : x ∉ fs.map FileEntry.hash := by
      intro hmem
      exact hx (by simp [hmem])
    simp only [processLoop]
    split
    · simp only [withSkipped]
      exact ih h s ok x hxfs
    · split
      · simp only [withFailed]
        exact ih h s ok x hxfs
      · split
        · simp only [withProcessed]
          rw [ih _ _ ok x hxfs, hashLookup_insert, if_neg hxf]
        · simp only [withFailed]
          exact ih h _ ok x hxfs

/-- Running the loop a second time from the state the first run left,
when the files' hashes are pairwise distinct and initially unseen:
everything processed the first time is skipped, everything that failed
fails again, and neither the hash store nor the vector store changes. -/
theorem processLoop_twice (sid : String) (files : List FileEntry) :
    ∀ (h : List (String × String)) (s : Store) (ok : Chunk → Bool),
      files.Pairwise (fun a b => a.hash ≠ b.hash) →
      (∀ f ∈ files, hashLookup h f.hash = none) →
      (processLoop sid files (processLoop sid files h s ok).hashes
          (processLoop sid files h s ok).store ok).report.processed = 0 ∧
      (processLoop sid files (processLoop sid files h s ok).hashes
          (processLoop sid files h s ok).store ok).report.skipped =
        (processLoop sid files h s ok).report.processed ∧
      (processLoop sid files (processLoop sid files h s ok).hashes
          (processLoop sid files h s ok).store ok).report.failed =
        (processLoop sid files h s ok).report.failed ∧
      (processLoop sid files (processLoop sid files h s ok).hashes
          (processLoop sid files h s ok).store ok).hashes =
        (processLoop sid files h s ok).hashes ∧
      (processLoop sid files (processLoop sid files h s ok).hashes
          (processLoop sid files h s ok).store ok).store =
        (processLoop sid files h s ok).store := by
  induction files with
  | nil => intro h s ok _ _; exact ⟨rfl, rfl, rfl, rfl, rfl⟩
  | cons f fs ih =>
    intro h s ok hpw hfresh
    obtain ⟨hfhead, hpw'⟩ := List.pairwise_cons.mp hpw
    have hfr : hashLookup h f.hash = none := hfresh f (List.mem_cons_self f fs)
    have hfrtail : ∀ g ∈ fs, hashLookup h g.hash = none :=
      fun g hg => hfresh g (List.mem_cons_of_mem f hg)
    have hnotin : f.hash ∉ fs.map FileEntry.hash := by
      intro hmem
      obtain ⟨b, hb, hbe⟩ := List.mem_map.mp hmem
      exact hfhead b hb hbe.symm
    have hsome : (hashLookup h f.hash).isSome = false := by rw [hfr]; rfl
    by_cases hc : f.chunks = []
    · -- load/chunk failure: failed in both runs
      have e1 := processLoop_cons_nochunks sid f fs h s ok hsome hc
      have hs2 : (hashLookup (processLoop sid fs h s ok).hashes f.hash).isSome = false := by
        rw [processLoop_hashes_stable sid fs h s ok f.hash hnotin, hfr]
        rfl
      have e2 := processLoop_cons_nochunks sid f fs (processLoop sid fs h s ok).hashes
        (processLoop sid fs h s ok).store ok hs2 hc
      have IH := ih h s ok hpw' hfrtail
      rw [e1]
      simp only [withFailed] at e2 ⊢
      rw [e2]
      exact ⟨IH.1, IH.2.1, by rw [IH.2.2.1], IH.2.2.2.1, IH.2.2.2.2⟩
    · by_cases hsucc : 0 < (add_chunks_to_weaviate s sid (f.chunks.map (prepChunk f))
          ok).successfulInserts
      · -- processed in run 1, skipped in run 2
        have e1 := processLoop_cons_success sid f fs h s ok hsome hc hsucc
        have hfr' : ∀ g ∈ fs, hashLookup (hashInsert f.hash f.name h) g.hash = none := by
          intro g hg
          rw [hashLookup_insert, if_neg (fun heq => hfhead g hg heq.symm)]
          exact hfrtail g hg
        have IH := ih (hashInsert f.hash f.name h)
          (add_chunks_to_weaviate s sid (f.chunks.map (prepChunk f)) ok).store ok hpw' hfr'
        have hins : (hashLookup (hashInsert f.hash f.name h) f.hash).isSome = true := by
          rw [hashLookup_insert, if_pos rfl]
          rfl
        have hsome2 : (hashLookup (processLoop sid fs (hashInsert f.hash f.name h)
            (add_chunks_to_weaviate s sid (f.chunks.map (prepChunk f)) ok).store
            ok).hashes f.hash).isSome = true :=
          processLoop_hashes_mono sid fs _ _ ok f.hash hins
        have e2 := processLoop_cons_skip sid f fs
          (processLoop sid fs (hashInsert f.hash f.name h)
            (add_chunks_to_weaviate s sid (f.chunks.map (prepChunk f)) ok).store ok).hashes
          (processLoop sid fs (hashInsert f.hash f.name h)
            (add_chunks_to_weaviate s sid (f.chunks.map (prepChunk f)) ok).store ok).store
          ok hsome2
        rw [e1]
        simp only [withProcessed, withSkipped] at e2 ⊢
        rw [e2]
        exact ⟨IH.1, by rw [IH.2.1], IH.2.2.1, IH.2.2.2.1, IH.2.2.2.2⟩
      · -- all inserts failed: failed in both runs, store untouched
        have hz : (add_chunks_to_weaviate s sid (f.chunks.map (prepChunk f))
            ok).successfulInserts = 0 := by omega
        have e1 := processLoop_cons_failins sid f fs h s ok hsome hc hz
        have hstore : (add_chunks_to_weaviate s sid (f.chunks.map (prepChunk f))
            ok).store = s := addChunksLoop_store_of_zero _ s sid ok hz
        rw [hstore] at e1
        have IH := ih h s ok hpw' hfrtail
        have hs2 : (hashLookup (processLoop sid fs h s ok).hashes f.hash).isSome = false := by
          rw [processLoop_hashes_stable sid fs h s ok f.hash hnotin, hfr]
          rfl
        have hz2 : (add_chunks_to_weaviate (processLoop sid fs h s ok).store sid
            (f.chunks.map (prepChunk f)) ok).successfulInserts = 0 :=
          (addChunksLoop_success_indep (f.chunks.map (prepChunk f))
            (processLoop sid fs h s ok).store s sid ok).trans hz
        have hstore2 : (add_chunks_to_weaviate (processLoop sid fs h s ok).store sid
            (f.chunks.map (prepChunk f)) ok).store = (processLoop sid fs h s ok).store :=
          addChunksLoop_store_of_zero _ _ sid ok hz2
        have e2 := processLoop_cons_failins sid f fs (processLoop sid fs h s ok).hashes
          (processLoop sid fs h s ok).store ok hs2 hc hz2
        rw [hstore2] at e2
        rw [e1]
        simp only [withFailed] at e2 ⊢
        rw [e2]
        exact ⟨IH.1, IH.2.1, by rw [IH.2.2.1], IH.2.2.2.1, IH.2.2.2.2⟩

/-- C2 counterexample: the claim fails when the fixed file set contains
two files with identical bytes (same content hash).  First run: the first
copy is processed, the second skipped (`processed = 1`, `skipped = 1`).
Second run with the unchanged file set: both are skipped
(`skipped = 2`), so the second report's skipped count does **not** equal
the number of files processed in the first run. -/
theorem idempotent_reingest_counterexample :
    (process_files_for_session "s1" [fGood, fGood2] noHashes emptyStore
        (fun _ => true)).report.processed = 1 ∧
    (process_files_for_session "s1" [fGood, fGood2]
        (process_files_for_session "s1" [fGood, fGood2] noHashes emptyStore
          (fun _ => true)).hashes
        (process_files_for_session "s1" [fGood, fGood2] noHashes emptyStore
          (fun _ => true)).store
        (fun _ => true)).report.skipped = 2 ∧
    ¬ ((process_files_for_session "s1" [fGood, fGood2]
        (process_files_for_session "s1" [fGood, fGood2] noHashes emptyStore
          (fun _ => true)).hashes
        (process_files_for_session "s1" [fGood, fGood2] noHashes emptyStore
          (fun _ => true)).store
        (fun _ => true)).report.skipped =
      (process_files_for_session "s1" [fGood, fGood2] noHashes emptyStore
        (fun _ => true)).report.processed) := by
  decide

/-- C2 (amended): idempotent re-ingestion holds provided the files'
content hashes are pairwise distinct and none is already present in the
processed-hashes store.  Then the second run of
`process_files_for_session` with the unchanged file set reports
`processed = 0`, a skipped count equal to the number of files processed
in the first run, the same failed list, records no new hashes, and
performs no further upserts — the vector store is unchanged, so the
tenant partition holds exactly one copy of each ingested chunk. -/
theorem idempotent_reingest_amended (sid : String) (files : List FileEntry)
    (h : List (String × String)) (s : Store) (ok : Chunk → Bool)
    (hdistinct : files.Pairwise (fun a b => a.hash ≠ b.hash))
    (hfresh : ∀ f ∈ files, hashLookup h f.hash = none) :
    (process_files_for_session sid files
        (process_files_for_session sid files h s ok).hashes
        (process_files_for_session sid files h s ok).store ok).report.processed = 0 ∧
    (process_files_for_session sid files
        (process_files_for_session sid files h s ok).hashes
        (process_files_for_session sid files h s ok).store ok).report.skipped =
      (process_files_for_session sid files h s ok).report.processed ∧
    (process_files_for_session sid files
        (process_files_for_session sid files h s ok).hashes
        (process_files_for_session sid files h s ok).store ok).report.failed =
      (process_files_for_session sid files h s ok).report.failed ∧
    (process_files_for_session sid files
        (process_files_for_session sid files h s ok).hashes
        (process_files_for_session sid files h s ok).store ok).hashes =
      (process_files_for_session sid files h s ok).hashes ∧
    (process_files_for_session sid files
        (process_files_for_session sid files h s ok).hashes
        (process_files_for_session sid files h s ok).store ok).store =
      (process_files_for_session sid files h s ok).store :=
  processLoop_twice sid files h s ok hdistinct hfresh

/-- C2 witness: the amended theorem applied to a concrete fresh two-file
set with distinct hashes. -/
theorem idempotent_reingest_amended_witness :
    [fGood, fMixed].Pairwise (fun a b => a.hash ≠ b.hash) ∧
    (∀ f ∈ [fGood, fMixed], hashLookup noHashes f.hash = none) ∧
    ((process_files_for_session "s1" [fGood, fMixed]
        (process_files_for_session "s1" [fGood, fMixed] noHashes emptyStore
          (fun _ => true)).hashes
        (process_files_for_session "s1" [fGood, fMixed] noHashes emptyStore
          (fun _ => true)).store (fun _ => true)).report.processed = 0 ∧
      (process_files_for_session "s1" [fGood, fMixed]
          (process_files_for_session "s1" [fGood, fMixed] noHashes emptyStore
            (fun _ => true)).hashes
          (process_files_for_session "s1" [fGood, fMixed] noHashes emptyStore
            (fun _ => true)).store (fun _ => true)).report.skipped =
        (process_files_for_session "s1" [fGood, fMixed] noHashes emptyStore
          (fun _ => true)).report.processed) :=
  ⟨by decide, by decide,
    ⟨(idempotent_reingest_amended "s1" [fGood, fMixed] noHashes emptyStore
        (fun _ => true) (by decide) (by decide)).1,
      (idempotent_reingest_amended "s1" [fGood, fMixed] noHashes emptyStore
        (fun _ => true) (by decide) (by decide)).2.1⟩⟩

/-- C10: the dedup registry is global, not per tenant.  If a file `f` was
successfully ingested by a run for session `A` (so its content hash is in
the processed-hashes store), then a later run for *any* session `B` on a
file `g` with identical bytes (same content hash) reports `g` as skipped,
records nothing new, and upserts nothing into `B`'s partition (the store
`s1` is returned unchanged) — because the processed-hashes store is one
shared hash map with no tenant key. -/
theorem global_dedup_cross_tenant (sidA sidB : String) (f g : FileEntry)
    (h0 : List (String × String)) (s0 s1 : Store) (ok : Chunk → Bool)
    (hp : (process_files_for_session sidA [f] h0 s0 ok).report.processed = 1)
    (hg : g.hash = f.hash) :
    (process_files_for_session sidB [g]
        (process_files_for_session sidA [f] h0 s0 ok).hashes s1 ok).report
      = ⟨0, 1, []⟩ ∧
    (process_files_for_session sidB [g]
        (process_files_for_session sidA [f] h0 s0 ok).hashes s1 ok).hashes
      = (process_files_for_session sidA [f] h0 s0 ok).hashes ∧
    (process_files_for_session sidB [g]
        (process_files_for_session sidA [f] h0 s0 ok).hashes s1 ok).store = s1 := by
  simp only [process_files_for_session] at hp ⊢
  have e1 := processLoop_single sidA f h0 s0 ok
  by_cases hx : (hashLookup h0 f.hash).isSome
  · rw [if_pos hx] at e1
    rw [e1] at hp
    simp at hp
  · rw [if_neg hx] at e1
    by_cases hc : f.chunks = []
    · rw [if_pos hc] at e1
      rw [e1] at hp
      simp at hp
    · rw [if_neg hc] at e1
      by_cases hs : 0 < (add_chunks_to_weaviate s0 sidA (f.chunks.map (prepChunk f))
          ok).successfulInserts
      · rw [if_pos hs] at e1
        have hlook : (hashLookup (processLoop sidA [f] h0 s0 ok).hashes g.hash).isSome := by
          rw [e1, hg, hashLookup_insert]
          simp
        have e2 := processLoop_single sidB g (processLoop sidA [f] h0 s0 ok).hashes s1 ok
        rw [if_pos hlook] at e2
        rw [e2]
        exact ⟨rfl, rfl, rfl⟩
      · rw [if_neg hs] at e1
        rw [e1] at hp
        simp at hp

/-- C10 witness: a concrete file ingested for session `s1` whose
identical-bytes re-upload for session `s2` is skipped. -/
theorem global_dedup_cross_tenant_witness :
    (process_files_for_session "s1" [fGood] noHashes emptyStore
        (fun _ => true)).report.processed = 1 ∧
    fGood2.hash = fGood.hash ∧
    (process_files_for_session "s2" [fGood2]
        (process_files_for_session "s1" [fGood] noHashes emptyStore
          (fun _ => true)).hashes emptyStore (fun _ => true)).report = ⟨0, 1, []⟩ :=
  ⟨by decide, by decide,
    (global_dedup_cross_tenant "s1" "s2" fGood fGood2 noHashes emptyStore emptyStore
      (fun _ => true) (by decide) (by decide)).1⟩

end DocRag
